import Mathlib

set_option maxHeartbeats 1600000

namespace Chrono

/-! Verification of the `NaiveDateTime` composition layer of rust-chrono
(src/naive/datetime.rs). The date component, the time-of-day component and
the format engine live in other files of the repository and are modelled
from the specification; the combined date-time operations are translated
from the source. -/

/-- The tight bit bound used by the early overflow guard of the checked
duration arithmetic (MAX_SECS_BITS in the source). -/
def MAX_SECS_BITS : Nat := 44

/-- Modelled from the spec: the time-of-day component (naive/time.rs, not
among the given sources) stores a count of seconds from midnight and a
nanosecond field; a nanosecond field of 1,000,000,000 or more denotes a
leap second. -/
structure NaiveTime where
  secs : Nat
  frac : Nat
deriving DecidableEq, Repr

/-- Validity invariant of the time-of-day component: the seconds of the day
lie below 86400 and the nanosecond field below 2,000,000,000. -/
def NaiveTime.Valid (t : NaiveTime) : Prop :=
  t.secs < 86400 ∧ t.frac < 2000000000

instance (t : NaiveTime) : Decidable t.Valid := by
  unfold NaiveTime.Valid; infer_instance

/-- Modelled from the spec: constructing a time of day from seconds since
midnight plus nanoseconds fails when the seconds reach 86400 or the
nanoseconds reach 2,000,000,000. -/
def NaiveTime.from_num_seconds_from_midnight_opt (secs nsecs : Nat) :
    Option NaiveTime :=
  if secs < 86400 ∧ nsecs < 2000000000 then some ⟨secs, nsecs⟩ else none

/-- Modelled from the spec: seconds since midnight of a time of day value
(the leap second is not counted). -/
def NaiveTime.num_seconds_from_midnight (t : NaiveTime) : Nat := t.secs

/-- Modelled from the spec: the nanosecond field, up to 1,999,999,999 for a
leap second. -/
def NaiveTime.nanosecond (t : NaiveTime) : Nat := t.frac

/-- Modelled from the spec: hour of the day. -/
def NaiveTime.hour (t : NaiveTime) : Nat := t.secs / 3600

/-- Modelled from the spec: minute of the hour. -/
def NaiveTime.minute (t : NaiveTime) : Nat := t.secs / 60 % 60

/-- Modelled from the spec: second of the minute (0 to 59, a leap second is
reported through the nanosecond field). -/
def NaiveTime.second (t : NaiveTime) : Nat := t.secs % 60

/-- Modelled from the spec: time-of-day addition of a duration once any leap
second has been stripped; wraps into one day and reports the overflowed
whole days (as a count of seconds, a multiple of 86400) using floor
semantics. Durations are counted in nanoseconds. -/
def NaiveTime.addAligned (secs frac : Nat) (d : Int) : NaiveTime × Int :=
  let total : Int := (secs : Int) * 1000000000 + (frac : Int) + d
  let v : Int := total % 86400000000000
  (⟨(v / 1000000000).toNat, (v % 1000000000).toNat⟩,
   86400 * (total / 86400000000000))

/-- Modelled from the spec: time-of-day addition of a signed duration,
returning the wrapped time of day and the signed day carry in seconds.
A value inside the leap-second window first consumes the duration inside
that window; leaving the window upward spends the remaining part of the
leap second, leaving it downward discards it, exactly as the worked
examples of the source document. -/
def NaiveTime.overflowing_add_signed (t : NaiveTime) (d : Int) :
    NaiveTime × Int :=
  if 1000000000 ≤ t.frac then
    if (2000000000 - (t.frac : Int)) ≤ d then
      NaiveTime.addAligned (t.secs + 1) 0 (d - (2000000000 - (t.frac : Int)))
    else if d < -(t.frac : Int) then
      NaiveTime.addAligned t.secs 0 (d + (t.frac : Int))
    else
      (⟨t.secs, ((t.frac : Int) + d).toNat⟩, 0)
  else
    NaiveTime.addAligned t.secs t.frac d

/-- Modelled from the spec (and from the source document of the subtraction
operator, which states that subtraction is the addition of the negated
duration): time-of-day subtraction with day carry. -/
def NaiveTime.overflowing_sub_signed (t : NaiveTime) (d : Int) :
    NaiveTime × Int :=
  let p := t.overflowing_add_signed (-d)
  (p.1, -p.2)

/-- Modelled from the spec: signed duration between two times of day, in
nanoseconds. Only the leap seconds encoded in the two operands exist: a
leap-second operand on the smaller side contributes one extra elapsed
second. -/
def NaiveTime.signed_duration_since (a b : NaiveTime) : Int :=
  let adjust : Int :=
    if b.secs < a.secs then (if 1000000000 ≤ b.frac then 1 else 0)
    else if a.secs < b.secs then (if 1000000000 ≤ a.frac then -1 else 0)
    else 0
  ((a.secs : Int) - (b.secs : Int) + adjust) * 1000000000 +
    ((a.frac : Int) - (b.frac : Int))

/-- Modelled from the spec: time-of-day setter for the hour. -/
def NaiveTime.with_hour (t : NaiveTime) (h : Nat) : Option NaiveTime :=
  if h < 24 then some ⟨h * 3600 + t.secs % 3600, t.frac⟩ else none

/-- Modelled from the spec: time-of-day setter for the minute. -/
def NaiveTime.with_minute (t : NaiveTime) (m : Nat) : Option NaiveTime :=
  if m < 60 then some ⟨t.secs / 3600 * 3600 + m * 60 + t.secs % 60, t.frac⟩
  else none

/-- Modelled from the spec: time-of-day setter for the second (0 to 59). -/
def NaiveTime.with_second (t : NaiveTime) (s : Nat) : Option NaiveTime :=
  if s < 60 then some ⟨t.secs / 60 * 60 + s, t.frac⟩ else none

/-- Modelled from the spec: time-of-day setter for the nanosecond field,
allowing the leap-second range up to 1,999,999,999. -/
def NaiveTime.with_nanosecond (t : NaiveTime) (n : Nat) : Option NaiveTime :=
  if n < 2000000000 then some ⟨t.secs, n⟩ else none

/-! ## The date component, modelled from the spec

The date component (naive/date.rs, not among the given sources) is
identified with its absolute day count: the number of days from the
Common Era epoch, day 1 being 0001-01-01 of the proleptic Gregorian
calendar. The supported year range is -262144 to 262143. -/

/-- Modelled from the spec: proleptic Gregorian leap year. -/
def isLeapYear (y : Int) : Prop :=
  (y % 4 = 0 ∧ y % 100 ≠ 0) ∨ y % 400 = 0

instance (y : Int) : Decidable (isLeapYear y) := by
  unfold isLeapYear; infer_instance

/-- Modelled from the spec: length of a calendar month. -/
def daysInMonth (y m : Int) : Int :=
  if m = 2 then (if isLeapYear y then 29 else 28)
  else if m = 4 ∨ m = 6 ∨ m = 9 ∨ m = 11 then 30
  else 31

/-- Modelled from the spec: a calendar triple is valid when the year is in
the supported range, the month is 1 to 12, and the day fits the month. -/
def validYmd (y m d : Int) : Prop :=
  -262144 ≤ y ∧ y ≤ 262143 ∧ 1 ≤ m ∧ m ≤ 12 ∧ 1 ≤ d ∧ d ≤ daysInMonth y m

instance (y m d : Int) : Decidable (validYmd y m d) := by
  unfold validYmd; infer_instance

/-- Modelled from the spec: the day count from the Common Era of a calendar
date, through the standard era decomposition of the proleptic Gregorian
calendar (eras of 146097 days starting on the first of March). -/
def daysFromCivil (y m d : Int) : Int :=
  let y' := y - (if m ≤ 2 then 1 else 0)
  let era := y' / 400
  let yoe := y' - 400 * era
  let mp := (m + 9) % 12
  let doy := (153 * mp + 2) / 5 + d - 1
  let doe := 365 * yoe + yoe / 4 - yoe / 100 + doy
  era * 146097 + doe - 305

/-- Modelled from the spec: the calendar date of a day count from the
Common Era, inverse of daysFromCivil on the supported range: the day of the
era is cut into centuries, then quadrennia, then years, clamping each index
so that the closing leap day stays inside the last subdivision. -/
def civilFromDays (n : Int) : Int × Int × Int :=
  let z := n + 305
  let era := z / 146097
  let doe := z % 146097
  let c := min 3 (doe / 36524)
  let dc := doe - 36524 * c
  let q := min 24 (dc / 1461)
  let dq := dc - 1461 * q
  let yq := min 3 (dq / 365)
  let doy := dq - 365 * yq
  let yoe := 100 * c + 4 * q + yq
  let y' := yoe + era * 400
  let mp := (5 * doy + 2) / 153
  let d := doy - (153 * mp + 2) / 5 + 1
  let m := mp + (if mp < 10 then 3 else -9)
  (y' + (if m ≤ 2 then 1 else 0), m, d)

/-- The smallest supported day count (January 1 of year -262144). -/
def minDayCE : Int := daysFromCivil (-262144) 1 1

/-- The largest supported day count (December 31 of year 262143). -/
def maxDayCE : Int := daysFromCivil 262143 12 31

/-- Modelled from the spec: validity of a day count for the date
component. -/
def ValidDate (d : Int) : Prop := minDayCE ≤ d ∧ d ≤ maxDayCE

instance (d : Int) : Decidable (ValidDate d) := by
  unfold ValidDate; infer_instance

/-- Modelled from the spec: constructing a date from its day count from the
Common Era fails outside the supported range. -/
def from_num_days_from_ce_opt (n : Int) : Option Int :=
  if ValidDate n then some n else none

/-- Modelled from the spec: constructing a date from a calendar triple
validates every field. -/
def fromYmdOpt (y m d : Int) : Option Int :=
  if validYmd y m d then some (daysFromCivil y m d) else none

/-- Modelled from the spec: adding a duration (given in whole seconds) to a
date moves it by the whole days of the duration, failing when the result
leaves the supported range. -/
def date_checked_add_signed (d0 : Int) (secs : Int) : Option Int :=
  let days := secs / 86400
  if ValidDate (d0 + days) then some (d0 + days) else none

/-- Modelled from the spec: subtracting a duration (given in whole seconds)
from a date, failing when the result leaves the supported range. -/
def date_checked_sub_signed (d0 : Int) (secs : Int) : Option Int :=
  let days := secs / 86400
  if ValidDate (d0 - days) then some (d0 - days) else none

/-- Modelled from the spec: signed duration between two dates, in
nanoseconds (a whole number of days). -/
def date_signed_duration_since (a b : Int) : Int := (a - b) * 86400000000000

/-! ## The combined date and time (translated from src/naive/datetime.rs) -/

/-- ISO 8601 combined date and time without timezone: a date (by its day
count from the Common Era) paired with a time of day. -/
structure NaiveDateTime where
  date : Int
  time : NaiveTime
deriving DecidableEq, Repr

/-- A NaiveDateTime value is valid when both components are. -/
def NaiveDateTime.Valid (x : NaiveDateTime) : Prop :=
  ValidDate x.date ∧ x.time.Valid

instance (x : NaiveDateTime) : Decidable x.Valid := by
  unfold NaiveDateTime.Valid; infer_instance

/-- NaiveDateTime::new, pairing the two components. -/
def NaiveDateTime.new (d : Int) (t : NaiveTime) : NaiveDateTime := ⟨d, t⟩

/-- NaiveDateTime::from_timestamp_opt: floor-divide the epoch seconds by
86400, shift the quotient by 719163 days (with the i32 conversion and
checked addition of the source), and build both components. -/
def NaiveDateTime.from_timestamp_opt (secs : Int) (nsecs : Nat) :
    Option NaiveDateTime :=
  let days := secs / 86400
  let rem := secs % 86400
  let date : Option Int :=
    if -2147483648 ≤ days ∧ days ≤ 2147483647 then
      if -2147483648 ≤ days + 719163 ∧ days + 719163 ≤ 2147483647 then
        from_num_days_from_ce_opt (days + 719163)
      else none
    else none
  let time := NaiveTime.from_num_seconds_from_midnight_opt rem.toNat nsecs
  match date, time with
  | some d, some t => some ⟨d, t⟩
  | _, _ => none

/-- Modelled from the spec: the absolute day count of a date (the date is
identified with it in this embedding). -/
def num_days_from_ce (d : Int) : Int := d

/-- NaiveDateTime::timestamp: seconds since the 1970 epoch. -/
def NaiveDateTime.timestamp (x : NaiveDateTime) : Int :=
  (num_days_from_ce x.date - 719163) * 86400 +
    (x.time.num_seconds_from_midnight : Int)

/-- NaiveDateTime::timestamp_subsec_nanos. -/
def NaiveDateTime.timestamp_subsec_nanos (x : NaiveDateTime) : Nat :=
  x.time.nanosecond

/-- NaiveDateTime::timestamp_subsec_micros. -/
def NaiveDateTime.timestamp_subsec_micros (x : NaiveDateTime) : Nat :=
  x.timestamp_subsec_nanos / 1000

/-- NaiveDateTime::timestamp_subsec_millis. -/
def NaiveDateTime.timestamp_subsec_millis (x : NaiveDateTime) : Nat :=
  x.timestamp_subsec_nanos / 1000000

/-- NaiveDateTime::checked_add_signed: delegate to the time of day, refuse a
day carry at or beyond 2^44 seconds in magnitude, then move the date. -/
def NaiveDateTime.checked_add_signed (x : NaiveDateTime) (rhs : Int) :
    Option NaiveDateTime :=
  let p := x.time.overflowing_add_signed rhs
  if p.2 ≤ -(2 ^ MAX_SECS_BITS : Int) ∨ (2 ^ MAX_SECS_BITS : Int) ≤ p.2 then
    none
  else
    match date_checked_add_signed x.date p.2 with
    | some d => some ⟨d, p.1⟩
    | none => none

/-- NaiveDateTime::checked_sub_signed: delegate to the time of day, refuse a
day carry at or beyond 2^44 seconds in magnitude, then move the date. -/
def NaiveDateTime.checked_sub_signed (x : NaiveDateTime) (rhs : Int) :
    Option NaiveDateTime :=
  let p := x.time.overflowing_sub_signed rhs
  if p.2 ≤ -(2 ^ MAX_SECS_BITS : Int) ∨ (2 ^ MAX_SECS_BITS : Int) ≤ p.2 then
    none
  else
    match date_checked_sub_signed x.date p.2 with
    | some d => some ⟨d, p.1⟩
    | none => none

/-- NaiveDateTime::signed_duration_since: the date-level difference plus the
time-level difference, in nanoseconds. -/
def NaiveDateTime.signed_duration_since (a b : NaiveDateTime) : Int :=
  date_signed_duration_since a.date b.date +
    NaiveTime.signed_duration_since a.time b.time

/-! Field setters of the combined value: a date-field setter rebuilds the
date and keeps the time, a time-field setter rebuilds the time and keeps
the date. -/

/-- Modelled from the spec: date setter for the year (month and day kept). -/
def date_with_year (d0 y : Int) : Option Int :=
  let c := civilFromDays d0
  fromYmdOpt y c.2.1 c.2.2

/-- Modelled from the spec: date setter for the 1-based month. -/
def date_with_month (d0 m : Int) : Option Int :=
  let c := civilFromDays d0
  fromYmdOpt c.1 m c.2.2

/-- Modelled from the spec: date setter for the 1-based day of month. -/
def date_with_day (d0 d : Int) : Option Int :=
  let c := civilFromDays d0
  fromYmdOpt c.1 c.2.1 d

/-- Modelled from the spec: length of a calendar year in days. -/
def yearLength (y : Int) : Int := if isLeapYear y then 366 else 365

/-- Modelled from the spec: date setter for the 1-based ordinal day of the
year. -/
def date_with_ordinal (d0 o : Int) : Option Int :=
  let c := civilFromDays d0
  if -262144 ≤ c.1 ∧ c.1 ≤ 262143 ∧ 1 ≤ o ∧ o ≤ yearLength c.1 then
    some (daysFromCivil c.1 1 1 + o - 1)
  else none

/-- NaiveDateTime::with_year. -/
def NaiveDateTime.with_year (x : NaiveDateTime) (y : Int) :
    Option NaiveDateTime :=
  (date_with_year x.date y).map fun d => ⟨d, x.time⟩

/-- NaiveDateTime::with_month. -/
def NaiveDateTime.with_month (x : NaiveDateTime) (m : Int) :
    Option NaiveDateTime :=
  (date_with_month x.date m).map fun d => ⟨d, x.time⟩

/-- NaiveDateTime::with_month0. -/
def NaiveDateTime.with_month0 (x : NaiveDateTime) (m : Int) :
    Option NaiveDateTime :=
  (date_with_month x.date (m + 1)).map fun d => ⟨d, x.time⟩

/-- NaiveDateTime::with_day. -/
def NaiveDateTime.with_day (x : NaiveDateTime) (d : Int) :
    Option NaiveDateTime :=
  (date_with_day x.date d).map fun dd => ⟨dd, x.time⟩

/-- NaiveDateTime::with_day0. -/
def NaiveDateTime.with_day0 (x : NaiveDateTime) (d : Int) :
    Option NaiveDateTime :=
  (date_with_day x.date (d + 1)).map fun dd => ⟨dd, x.time⟩

/-- NaiveDateTime::with_ordinal. -/
def NaiveDateTime.with_ordinal (x : NaiveDateTime) (o : Int) :
    Option NaiveDateTime :=
  (date_with_ordinal x.date o).map fun d => ⟨d, x.time⟩

/-- NaiveDateTime::with_ordinal0. -/
def NaiveDateTime.with_ordinal0 (x : NaiveDateTime) (o : Int) :
    Option NaiveDateTime :=
  (date_with_ordinal x.date (o + 1)).map fun d => ⟨d, x.time⟩

/-- NaiveDateTime::with_hour. -/
def NaiveDateTime.with_hour (x : NaiveDateTime) (h : Nat) :
    Option NaiveDateTime :=
  (x.time.with_hour h).map fun t => ⟨x.date, t⟩

/-- NaiveDateTime::with_minute. -/
def NaiveDateTime.with_minute (x : NaiveDateTime) (m : Nat) :
    Option NaiveDateTime :=
  (x.time.with_minute m).map fun t => ⟨x.date, t⟩

/-- NaiveDateTime::with_second. -/
def NaiveDateTime.with_second (x : NaiveDateTime) (s : Nat) :
    Option NaiveDateTime :=
  (x.time.with_second s).map fun t => ⟨x.date, t⟩

/-- NaiveDateTime::with_nanosecond. -/
def NaiveDateTime.with_nanosecond (x : NaiveDateTime) (n : Nat) :
    Option NaiveDateTime :=
  (x.time.with_nanosecond n).map fun t => ⟨x.date, t⟩

/-- The serde integer fallback (NaiveDateTimeVisitor::visit_i64): a bare
integer is interpreted as whole epoch seconds with zero subseconds. -/
def visit_i64 (v : Int) : Option NaiveDateTime :=
  NaiveDateTime.from_timestamp_opt v 0

/-! ## Correctness of the calendar decomposition

The lemmas below establish that civilFromDays produces a valid calendar
triple on the supported range and that daysFromCivil inverts it. They are
stated over explicit variables carrying the defining equations of the
intermediate quantities, so that each step is a small linear problem. -/

theorem eraFacts (z era doe : Int)
    (hera : era = z / 146097) (hdoe : doe = z % 146097) :
    z = 146097 * era + doe ∧ 0 ≤ doe ∧ doe ≤ 146096 := by omega

theorem centuryFacts (doe c dc : Int) (h0 : 0 ≤ doe) (h1 : doe ≤ 146096)
    (hc : c = min 3 (doe / 36524)) (hdc : dc = doe - 36524 * c) :
    doe = 36524 * c + dc ∧ 0 ≤ c ∧ c ≤ 3 ∧ 0 ≤ dc ∧ dc ≤ 36524 ∧
      (dc = 36524 → c = 3) := by omega

theorem quadFacts (dc q dq : Int) (h0 : 0 ≤ dc) (h1 : dc ≤ 36524)
    (hq : q = min 24 (dc / 1461)) (hdq : dq = dc - 1461 * q) :
    dc = 1461 * q + dq ∧ 0 ≤ q ∧ q ≤ 24 ∧ 0 ≤ dq ∧ dq ≤ 1460 ∧
      (dq = 1460 → q = 24 → dc = 36524) := by omega

theorem yearFacts (dq yq doy : Int) (h0 : 0 ≤ dq) (h1 : dq ≤ 1460)
    (hyq : yq = min 3 (dq / 365)) (hdoy : doy = dq - 365 * yq) :
    dq = 365 * yq + doy ∧ 0 ≤ yq ∧ yq ≤ 3 ∧ 0 ≤ doy ∧ doy ≤ 365 ∧
      (doy = 365 → (dq = 1460 ∧ yq = 3)) := by omega

theorem yoeFacts (c q yq yoe : Int) (hc : 0 ≤ c) (hc2 : c ≤ 3)
    (hq : 0 ≤ q) (hq2 : q ≤ 24) (hyq : 0 ≤ yq) (hyq2 : yq ≤ 3)
    (hyoe : yoe = 100 * c + 4 * q + yq) :
    0 ≤ yoe ∧ yoe ≤ 399 ∧
      365 * yoe + yoe / 4 - yoe / 100 = 36524 * c + 1461 * q + 365 * yq := by
  omega

theorem monthFacts (doy mp dd : Int) (h0 : 0 ≤ doy) (h1 : doy ≤ 365)
    (hmp : mp = (5 * doy + 2) / 153)
    (hdd : dd = doy - (153 * mp + 2) / 5 + 1) :
    0 ≤ mp ∧ mp ≤ 11 ∧ (153 * mp + 2) / 5 + dd - 1 = doy ∧
      1 ≤ dd ∧ dd ≤ 31 ∧
      ((mp = 1 ∨ mp = 3 ∨ mp = 6 ∨ mp = 8) → dd ≤ 30) ∧
      (mp = 11 → dd ≤ 29) ∧ (mp = 11 → dd = 29 → doy = 365) ∧
      (doy = 365 → mp = 11) ∧ (10 ≤ mp → 306 ≤ doy) ∧ (mp ≤ 9 → doy ≤ 305) := by
  omega

theorem mFacts (mp m : Int) (h0 : 0 ≤ mp) (h1 : mp ≤ 11)
    (hm : m = mp + (if mp < 10 then 3 else -9)) :
    1 ≤ m ∧ m ≤ 12 ∧ (m ≤ 2 ↔ 10 ≤ mp) ∧ (m = 2 ↔ mp = 11) ∧
      ((m = 4 ∨ m = 6 ∨ m = 9 ∨ m = 11) ↔
        (mp = 1 ∨ mp = 3 ∨ mp = 6 ∨ mp = 8)) ∧
      (m + 9) % 12 = mp := by
  split_ifs at hm <;> omega

theorem yLowerA (n era yoe doy : Int)
    (hn : -95746495 ≤ n)
    (heq : n = 146097 * era + (365 * yoe + yoe / 4 - yoe / 100) + doy - 305)
    (h0 : 0 ≤ yoe) (h1 : yoe ≤ 399) (hd0 : 0 ≤ doy) (hd1 : doy ≤ 305) :
    -262144 ≤ 400 * era + yoe := by omega

theorem yLowerB (n era yoe doy : Int)
    (hn : -95746495 ≤ n)
    (heq : n = 146097 * era + (365 * yoe + yoe / 4 - yoe / 100) + doy - 305)
    (h0 : 0 ≤ yoe) (h1 : yoe ≤ 399) (hd0 : 0 ≤ doy) (hd1 : doy ≤ 365) :
    -262145 ≤ 400 * era + yoe := by omega

theorem yUpperA (n era yoe doy : Int)
    (hn2 : n ≤ 95745764)
    (heq : n = 146097 * era + (365 * yoe + yoe / 4 - yoe / 100) + doy - 305)
    (h0 : 0 ≤ yoe) (h1 : yoe ≤ 399) (hd0 : 0 ≤ doy) (hd1 : doy ≤ 365) :
    400 * era + yoe ≤ 262143 := by omega

theorem yUpperB (n era yoe doy : Int)
    (hn2 : n ≤ 95745764)
    (heq : n = 146097 * era + (365 * yoe + yoe / 4 - yoe / 100) + doy - 305)
    (h0 : 0 ≤ yoe) (h1 : yoe ≤ 399) (hd0 : 306 ≤ doy) (hd1 : doy ≤ 365) :
    400 * era + yoe ≤ 262142 := by omega

theorem yFacts (era yoe doy mp m y y' n : Int)
    (hn : -95746495 ≤ n) (hn2 : n ≤ 95745764)
    (heq : n = 146097 * era + (365 * yoe + yoe / 4 - yoe / 100) + doy - 305)
    (h0 : 0 ≤ yoe) (h1 : yoe ≤ 399) (hdoy : 0 ≤ doy) (hdoy2 : doy ≤ 365)
    (hy' : y' = yoe + era * 400)
    (hm2 : m ≤ 2 ↔ 10 ≤ mp) (hd1 : 10 ≤ mp → 306 ≤ doy)
    (hd2 : mp ≤ 9 → doy ≤ 305) (hmp0 : 0 ≤ mp) (hmp1 : mp ≤ 11)
    (hy : y = y' + (if m ≤ 2 then 1 else 0)) :
    -262144 ≤ y ∧ y ≤ 262143 ∧
      y - (if m ≤ 2 then 1 else 0) = 400 * era + yoe := by
  split_ifs at hy ⊢ with hcnd
  · have hd := hd1 (hm2.mp hcnd)
    have hl := yLowerB n era yoe doy hn heq h0 h1 hdoy hdoy2
    have hu := yUpperB n era yoe doy hn2 heq h0 h1 hd hdoy2
    refine ⟨by linarith only [hl, hy, hy'], by linarith only [hu, hy, hy'],
      by linarith only [hy, hy']⟩
  · have hd := hd2 (by omega)
    have hl := yLowerA n era yoe doy hn heq h0 h1 hdoy hd
    have hu := yUpperA n era yoe doy hn2 heq h0 h1 hdoy hdoy2
    refine ⟨by linarith only [hl, hy, hy'], by linarith only [hu, hy, hy'],
      by linarith only [hy, hy']⟩

theorem leapStep (era c q y : Int) (hq : 0 ≤ q) (hq2 : q ≤ 24)
    (hc : 0 ≤ c) (hc2 : c ≤ 3) (hq24 : q = 24 → c = 3)
    (hy : y = 400 * era + 100 * c + 4 * q + 4) : isLeapYear y := by
  simp only [isLeapYear]; omega

theorem yLeapForm (era c q yq yoe y' mp m y : Int)
    (hyoe : yoe = 100 * c + 4 * q + yq) (hy' : y' = yoe + era * 400)
    (hyq3 : yq = 3) (hmp11 : mp = 11)
    (hm : m = mp + (if mp < 10 then 3 else -9))
    (hy : y = y' + (if m ≤ 2 then 1 else 0)) :
    y = 400 * era + 100 * c + 4 * q + 4 := by
  split_ifs at hm hy <;> omega

theorem daysFromCivil_eq (y m d era yoe mp doy : Int)
    (h1 : 0 ≤ yoe) (h1b : yoe ≤ 399) (h2 : 0 ≤ mp) (h2b : mp ≤ 11)
    (hyp : y - (if m ≤ 2 then 1 else 0) = 400 * era + yoe)
    (hmp : (m + 9) % 12 = mp)
    (hdoy : (153 * mp + 2) / 5 + d - 1 = doy) :
    daysFromCivil y m d =
      era * 146097 + (365 * yoe + yoe / 4 - yoe / 100 + doy) - 305 := by
  simp only [daysFromCivil]
  rw [hmp, hyp]
  have hE : (400 * era + yoe) / 400 = era := by omega
  rw [hE]
  have hY : 400 * era + yoe - 400 * era = yoe := by ring
  rw [hY, hdoy]

theorem calendarCore (n z era doe c dc q dq yq doy yoe y' mp dd m y : Int)
    (hn : -95746495 ≤ n) (hn2 : n ≤ 95745764)
    (hz : z = n + 305) (hera : era = z / 146097) (hdoe : doe = z % 146097)
    (hc : c = min 3 (doe / 36524)) (hdc : dc = doe - 36524 * c)
    (hq : q = min 24 (dc / 1461)) (hdq : dq = dc - 1461 * q)
    (hyq : yq = min 3 (dq / 365)) (hdoy : doy = dq - 365 * yq)
    (hyoe : yoe = 100 * c + 4 * q + yq) (hy' : y' = yoe + era * 400)
    (hmp : mp = (5 * doy + 2) / 153) (hdd : dd = doy - (153 * mp + 2) / 5 + 1)
    (hm : m = mp + (if mp < 10 then 3 else -9))
    (hy : y = y' + (if m ≤ 2 then 1 else 0)) :
    validYmd y m dd ∧ daysFromCivil y m dd = n := by
  obtain ⟨E1, E2, E3⟩ := eraFacts z era doe hera hdoe
  obtain ⟨C1, C2, C3, C4, C5, C6⟩ := centuryFacts doe c dc E2 E3 hc hdc
  obtain ⟨Q1, Q2, Q3, Q4, Q5, Q6⟩ := quadFacts dc q dq C4 C5 hq hdq
  obtain ⟨Y1, Y2, Y3, Y4, Y5, Y6⟩ := yearFacts dq yq doy Q4 Q5 hyq hdoy
  obtain ⟨O1, O2, O3⟩ := yoeFacts c q yq yoe C2 C3 Q2 Q3 Y2 Y3 hyoe
  obtain ⟨M1, M2, M3, M4, M5, M6, M7, M8, M9, M10, M11⟩ :=
    monthFacts doy mp dd Y4 Y5 hmp hdd
  obtain ⟨G1, G2, G3, G4, G5, G6⟩ := mFacts mp m M1 M2 hm
  have hEq : n = 146097 * era + 36524 * c + 1461 * q + 365 * yq + doy - 305 := by
    linarith only [hz, E1, C1, Q1, Y1]
  have heq : n = 146097 * era + (365 * yoe + yoe / 4 - yoe / 100) + doy - 305 := by
    linarith only [hEq, O3]
  obtain ⟨B1, B2, B3⟩ := yFacts era yoe doy mp m y y' n hn hn2 heq
    O1 O2 Y4 Y5 hy' G3 M10 M11 M1 M2 hy
  have hleap : doy = 365 → isLeapYear y := by
    intro h365
    obtain ⟨hdq1460, hyq3⟩ := Y6 h365
    exact leapStep era c q y Q2 Q3 C2 C3 (fun hq24 => C6 (Q6 hdq1460 hq24))
      (yLeapForm era c q yq yoe y' mp m y hyoe hy' hyq3 (M9 h365) hm hy)
  constructor
  · simp only [validYmd, daysInMonth]
    refine ⟨B1, B2, G1, G2, M4, ?_⟩
    split_ifs with h2 hlp h30
    · exact M7 (G4.mp h2)
    · have h28 : dd ≠ 29 := fun h29 => hlp (hleap (M8 (G4.mp h2) h29))
      have := M7 (G4.mp h2)
      omega
    · exact M6 (G5.mp h30)
    · exact M5
  · rw [daysFromCivil_eq y m dd era yoe mp doy O1 O2 M1 M2 B3 G6 M3, O3]
    linarith only [hEq]

/-- On the supported range, civilFromDays yields a valid calendar triple and
daysFromCivil maps it back to the original day count. -/
theorem civilFromDays_correct (n : Int)
    (h1 : minDayCE ≤ n) (h2 : n ≤ maxDayCE) :
    validYmd (civilFromDays n).1 (civilFromDays n).2.1 (civilFromDays n).2.2 ∧
      daysFromCivil (civilFromDays n).1 (civilFromDays n).2.1
        (civilFromDays n).2.2 = n := by
  have h1' : (-95746495 : Int) ≤ n := by
    have : minDayCE = -95746495 := by decide
    omega
  have h2' : n ≤ 95745764 := by
    have : maxDayCE = 95745764 := by decide
    omega
  simp only [civilFromDays]
  exact calendarCore n _ _ _ _ _ _ _ _ _ _ _ _ _ _ _ h1' h2'
    rfl rfl rfl rfl rfl rfl rfl rfl rfl rfl rfl rfl rfl rfl rfl

/-! ## Epoch conversion -/

/-- The numeral value of the smallest supported day count. -/
theorem minDayCE_eq : minDayCE = -95746495 := by decide

/-- The numeral value of the largest supported day count. -/
theorem maxDayCE_eq : maxDayCE = 95745764 := by decide

/-- Full characterization of from_timestamp_opt: the i32 conversion checks of
the source are subsumed by the supported-range check of the date. -/
theorem from_timestamp_opt_spec (secs : Int) (nsecs : Nat) :
    NaiveDateTime.from_timestamp_opt secs nsecs =
      if ValidDate (secs / 86400 + 719163) ∧ nsecs < 2000000000 then
        some ⟨secs / 86400 + 719163, ⟨(secs % 86400).toNat, nsecs⟩⟩
      else none := by
  unfold NaiveDateTime.from_timestamp_opt from_num_days_from_ce_opt
    NaiveTime.from_num_seconds_from_midnight_opt
  have h1 : (secs % 86400).toNat < 86400 := by omega
  simp only [ValidDate, minDayCE_eq, maxDayCE_eq, h1, true_and]
  split_ifs <;> first | rfl | omega

/-- C2: for every valid NaiveDateTime x, from_timestamp_opt applied to
x.timestamp and x.timestamp_subsec_nanos returns exactly x; and x.timestamp
equals (days-from-CE of the date minus 719163) times 86400 plus the seconds
from midnight of the time, a quantity that stays strictly inside the signed
64-bit range. -/
theorem C2_timestamp_roundtrip (x : NaiveDateTime) (h : x.Valid) :
    NaiveDateTime.from_timestamp_opt x.timestamp x.timestamp_subsec_nanos =
      some x ∧
    x.timestamp = (num_days_from_ce x.date - 719163) * 86400 +
      (x.time.num_seconds_from_midnight : Int) ∧
    -(2 ^ 63) < x.timestamp ∧ x.timestamp < 2 ^ 63 := by
  obtain ⟨⟨hd1, hd2⟩, hs, hf⟩ := h
  have hts : x.timestamp =
      (x.date - 719163) * 86400 + (x.time.secs : Int) := rfl
  have h2 := minDayCE_eq
  have h3 := maxDayCE_eq
  have h63 : (2 : Int) ^ 63 = 9223372036854775808 := by norm_num
  refine ⟨?_, rfl, by omega, by omega⟩
  rw [from_timestamp_opt_spec]
  have e1 : x.timestamp / 86400 + 719163 = x.date := by omega
  have e2 : (x.timestamp % 86400).toNat = x.time.secs := by omega
  rw [e1, e2]
  have hvd : ValidDate x.date := ⟨hd1, hd2⟩
  have hnan : x.timestamp_subsec_nanos = x.time.frac := rfl
  rw [if_pos ⟨hvd, by omega⟩]
  rfl

/-- Witness for C2 at a concrete valid value (1970-01-01T12:34:56.000000123,
day count 719163, 45296 seconds of the day). -/
theorem C2_timestamp_roundtrip_witness :
    (⟨719163, ⟨45296, 123⟩⟩ : NaiveDateTime).Valid ∧
    NaiveDateTime.from_timestamp_opt
        (NaiveDateTime.timestamp ⟨719163, ⟨45296, 123⟩⟩)
        (NaiveDateTime.timestamp_subsec_nanos ⟨719163, ⟨45296, 123⟩⟩) =
      some ⟨719163, ⟨45296, 123⟩⟩ :=
  ⟨by decide, (C2_timestamp_roundtrip ⟨719163, ⟨45296, 123⟩⟩ (by decide)).1⟩

/-- C3: from_timestamp_opt floor-divides the epoch seconds by 86400 with a
remainder in [0, 86400), adds 719163 days, and fails exactly when the
resulting day count is out of the supported range or the nanosecond part
reaches 2,000,000,000; the two concrete examples of the source document
evaluate as stated. -/
theorem C3_from_timestamp
    (secs : Int) (nsecs : Nat) :
    (0 ≤ secs % 86400 ∧ secs % 86400 < 86400 ∧
      secs = 86400 * (secs / 86400) + secs % 86400) ∧
    NaiveDateTime.from_timestamp_opt secs nsecs =
      (if ValidDate (secs / 86400 + 719163) ∧ nsecs < 2000000000 then
        some ⟨secs / 86400 + 719163, ⟨(secs % 86400).toNat, nsecs⟩⟩
      else none) ∧
    (NaiveDateTime.from_timestamp_opt secs nsecs = none ↔
      (¬ ValidDate (secs / 86400 + 719163) ∨ 2000000000 ≤ nsecs)) ∧
    NaiveDateTime.from_timestamp_opt 0 42000000 =
      some ⟨daysFromCivil 1970 1 1, ⟨0, 42000000⟩⟩ ∧
    NaiveDateTime.from_timestamp_opt 1000000000 0 =
      some ⟨daysFromCivil 2001 9 9, ⟨1 * 3600 + 46 * 60 + 40, 0⟩⟩ := by
  refine ⟨by omega, from_timestamp_opt_spec secs nsecs, ?_, by decide, by decide⟩
  rw [from_timestamp_opt_spec]
  split_ifs with hcond
  · have hr : ¬ (¬ ValidDate (secs / 86400 + 719163) ∨ 2000000000 ≤ nsecs) := by
      push_neg
      exact ⟨hcond.1, by omega⟩
    simp [hr]
  · have hr : ¬ ValidDate (secs / 86400 + 719163) ∨ 2000000000 ≤ nsecs := by
      rcases not_and_or.mp hcond with h | h
      · exact Or.inl h
      · exact Or.inr (by omega)
    simp [hr]

/-- C8: the permissive numeric fallback interprets a bare integer i as
from_timestamp_opt i 0 (whole epoch seconds, zero subseconds), succeeding
exactly on the representable range; bare 0 is 1970-01-01T00:00:00 and bare
-1 is 1969-12-31T23:59:59. -/
theorem C8_integer_fallback :
    (∀ i : Int, visit_i64 i = NaiveDateTime.from_timestamp_opt i 0) ∧
    (∀ i : Int, ValidDate (i / 86400 + 719163) →
      visit_i64 i = some ⟨i / 86400 + 719163, ⟨(i % 86400).toNat, 0⟩⟩) ∧
    visit_i64 0 = some ⟨daysFromCivil 1970 1 1, ⟨0, 0⟩⟩ ∧
    visit_i64 (-1) =
      some ⟨daysFromCivil 1969 12 31, ⟨23 * 3600 + 59 * 60 + 59, 0⟩⟩ := by
  refine ⟨fun i => rfl, fun i hv => ?_, by decide, by decide⟩
  unfold visit_i64
  rw [from_timestamp_opt_spec, if_pos ⟨hv, by omega⟩]

/-- Witness for C8: the in-range success case applied at i = 86400. -/
theorem C8_integer_fallback_witness :
    ValidDate ((86400 : Int) / 86400 + 719163) ∧
    visit_i64 86400 =
      some ⟨(86400 : Int) / 86400 + 719163, ⟨((86400 : Int) % 86400).toNat, 0⟩⟩ :=
  ⟨by decide, C8_integer_fallback.2.1 86400 (by decide)⟩

/-! ## Duration arithmetic -/

/-- The day carry reported by the time-of-day addition is always a whole
number of days, expressed in seconds. -/
theorem overflowing_add_carry_dvd (t : NaiveTime) (d : Int) :
    (86400 : Int) ∣ (t.overflowing_add_signed d).2 := by
  unfold NaiveTime.overflowing_add_signed NaiveTime.addAligned
  split_ifs <;> first | exact ⟨_, rfl⟩ | exact dvd_zero _

/-- The numeral value of the guard bound. -/
theorem pow_MAX_SECS_BITS_eq : (2 : Int) ^ MAX_SECS_BITS = 17592186044416 := by
  norm_num [MAX_SECS_BITS]

/-- C9: subtracting a duration is exactly adding its negation, with the same
overflow behaviour. -/
theorem C9_sub_eq_add_neg (x : NaiveDateTime) (d : Int) :
    x.checked_sub_signed d = x.checked_add_signed (-d) := by
  unfold NaiveDateTime.checked_sub_signed NaiveDateTime.checked_add_signed
    NaiveTime.overflowing_sub_signed
  obtain ⟨k, hk⟩ := overflowing_add_carry_dvd x.time (-d)
  rw [pow_MAX_SECS_BITS_eq] at *
  set p := x.time.overflowing_add_signed (-d) with hp
  simp only [date_checked_sub_signed, date_checked_add_signed]
  have e1 : -p.2 / 86400 = -k := by omega
  have e2 : p.2 / 86400 = k := by omega
  rw [e1, e2]
  have e3 : x.date - -k = x.date + k := by ring
  rw [e3]
  have hg : (-p.2 ≤ -17592186044416 ∨ (17592186044416 : Int) ≤ -p.2) ↔
      (p.2 ≤ -17592186044416 ∨ (17592186044416 : Int) ≤ p.2) := by omega
  simp only [hg]

/-- C5: whenever the day carry of the time-of-day step reaches 2^44 seconds
in magnitude, the checked addition (resp. subtraction) returns None; and a
carry that large (a whole number of days) is guaranteed to push any valid
date out of the supported range, so the guard only refuses inputs whose
date step would fail anyway. -/
theorem C5_early_guard :
    (∀ (x : NaiveDateTime) (d : Int),
      ((2 : Int) ^ MAX_SECS_BITS ≤ (x.time.overflowing_add_signed d).2 ∨
        (x.time.overflowing_add_signed d).2 ≤ -((2 : Int) ^ MAX_SECS_BITS)) →
      x.checked_add_signed d = none) ∧
    (∀ (x : NaiveDateTime) (d : Int),
      ((2 : Int) ^ MAX_SECS_BITS ≤ (x.time.overflowing_sub_signed d).2 ∨
        (x.time.overflowing_sub_signed d).2 ≤ -((2 : Int) ^ MAX_SECS_BITS)) →
      x.checked_sub_signed d = none) ∧
    (∀ (d0 c : Int), ValidDate d0 → (86400 : Int) ∣ c →
      ((2 : Int) ^ MAX_SECS_BITS ≤ c ∨ c ≤ -((2 : Int) ^ MAX_SECS_BITS)) →
      date_checked_add_signed d0 c = none ∧
        date_checked_sub_signed d0 c = none) := by
  refine ⟨?_, ?_, ?_⟩
  · intro x d hg
    unfold NaiveDateTime.checked_add_signed
    rw [pow_MAX_SECS_BITS_eq] at *
    rw [if_pos (by omega)]
  · intro x d hg
    unfold NaiveDateTime.checked_sub_signed
    rw [pow_MAX_SECS_BITS_eq] at *
    rw [if_pos (by omega)]
  · intro d0 c hv hdvd hg
    obtain ⟨k, hk⟩ := hdvd
    obtain ⟨h1, h2⟩ := hv
    have hmin := minDayCE_eq
    have hmax := maxDayCE_eq
    rw [pow_MAX_SECS_BITS_eq] at hg
    unfold date_checked_add_signed date_checked_sub_signed ValidDate
    have ek : c / 86400 = k := by omega
    rw [ek]
    constructor
    · rw [if_neg (by omega)]
    · rw [if_neg (by omega)]

/-- Witness for C5 at a concrete oversized carry: adding 2^44 seconds as a
duration of 2^44 * 10^9 nanoseconds to the epoch produces a carry of
exactly 2^44 seconds and both guards fire. -/
theorem C5_early_guard_witness :
    ((2 : Int) ^ MAX_SECS_BITS ≤
        ((⟨0, 0⟩ : NaiveTime).overflowing_add_signed 17592186096000000000000).2 ∨
      ((⟨0, 0⟩ : NaiveTime).overflowing_add_signed 17592186096000000000000).2 ≤
        -((2 : Int) ^ MAX_SECS_BITS)) ∧
    NaiveDateTime.checked_add_signed ⟨719163, ⟨0, 0⟩⟩ 17592186096000000000000 =
      none ∧
    ValidDate 719163 ∧ (86400 : Int) ∣ 17592186096000 ∧
    date_checked_add_signed 719163 17592186096000 = none :=
  ⟨by decide,
   C5_early_guard.1 ⟨719163, ⟨0, 0⟩⟩ 17592186096000000000000 (by decide),
   by decide, by decide,
   (C5_early_guard.2.2 719163 17592186096000 (by decide) (by decide)
     (by decide)).1⟩

/-- C6: the signed duration between two NaiveDateTime values is
antisymmetric, and for valid operands its magnitude stays far inside the
range representable by the duration type (signed 64-bit milliseconds,
expressed here in nanoseconds). -/
theorem C6_duration_since_antisymmetric :
    (∀ a b : NaiveDateTime,
      a.signed_duration_since b = -(b.signed_duration_since a)) ∧
    (∀ a b : NaiveDateTime, a.Valid → b.Valid →
      -16545017579600000000000 ≤ a.signed_duration_since b ∧
      a.signed_duration_since b ≤ 16545017579600000000000 ∧
      (16545017579600000000000 : Int) < (2 ^ 63 - 1) * 1000000) := by
  constructor
  · intro a b
    unfold NaiveDateTime.signed_duration_since date_signed_duration_since
      NaiveTime.signed_duration_since
    dsimp only
    split_ifs <;> omega
  · intro a b ⟨⟨had1, had2⟩, has, haf⟩ ⟨⟨hbd1, hbd2⟩, hbs, hbf⟩
    have hmin := minDayCE_eq
    have hmax := maxDayCE_eq
    have h63 : ((2 : Int) ^ 63 - 1) * 1000000 = 9223372036854775807000000 := by
      norm_num
    unfold NaiveDateTime.signed_duration_since date_signed_duration_since
      NaiveTime.signed_duration_since
    dsimp only
    split_ifs <;> refine ⟨by omega, by omega, by omega⟩

/-- Witness for C6 at two concrete valid values, one of them a leap
second. -/
theorem C6_duration_since_antisymmetric_witness :
    (⟨719163, ⟨86399, 1500000000⟩⟩ : NaiveDateTime).Valid ∧
    (⟨719164, ⟨3600, 0⟩⟩ : NaiveDateTime).Valid ∧
    -16545017579600000000000 ≤
      NaiveDateTime.signed_duration_since ⟨719164, ⟨3600, 0⟩⟩
        ⟨719163, ⟨86399, 1500000000⟩⟩ :=
  ⟨by decide, by decide,
   (C6_duration_since_antisymmetric.2 ⟨719164, ⟨3600, 0⟩⟩
     ⟨719163, ⟨86399, 1500000000⟩⟩ (by decide) (by decide)).1⟩

/-! ## The add/sub round trip -/

/-- The value of a time of day in nanoseconds since midnight, leap part
included. -/
def NaiveTime.tval (t : NaiveTime) : Int := (t.secs : Int) * 1000000000 + t.frac

theorem NaiveTime.eq_of_parts {a b : NaiveTime}
    (h1 : a.secs = b.secs) (h2 : a.frac = b.frac) : a = b := by
  cases a; cases b; simp_all

theorem addAligned_spec (secs frac : Nat) (d : Int) :
    (NaiveTime.addAligned secs frac d).1.tval =
      ((secs : Int) * 1000000000 + frac + d) % 86400000000000 ∧
    (NaiveTime.addAligned secs frac d).2 =
      86400 * (((secs : Int) * 1000000000 + frac + d) / 86400000000000) ∧
    (NaiveTime.addAligned secs frac d).1.secs < 86400 ∧
    (NaiveTime.addAligned secs frac d).1.frac < 1000000000 := by
  unfold NaiveTime.addAligned NaiveTime.tval
  dsimp only
  refine ⟨by omega, rfl, by omega, by omega⟩

theorem overflowing_add_nonleap (t : NaiveTime) (d : Int)
    (h : t.frac < 1000000000) :
    t.overflowing_add_signed d = NaiveTime.addAligned t.secs t.frac d := by
  unfold NaiveTime.overflowing_add_signed
  rw [if_neg (by omega)]

theorem overflowing_add_inwindow (t : NaiveTime) (d : Int)
    (h1 : 1000000000 ≤ t.frac) (h2 : -(t.frac : Int) ≤ d)
    (h3 : d < 2000000000 - (t.frac : Int)) :
    t.overflowing_add_signed d = (⟨t.secs, ((t.frac : Int) + d).toNat⟩, 0) := by
  unfold NaiveTime.overflowing_add_signed
  rw [if_pos (by omega), if_neg (by omega), if_neg (by omega)]

/-- Success characterization of checked_add_signed. -/
theorem checked_add_signed_some_iff (x : NaiveDateTime) (d : Int)
    (y : NaiveDateTime) :
    x.checked_add_signed d = some y ↔
      ¬((x.time.overflowing_add_signed d).2 ≤ -(2 ^ MAX_SECS_BITS : Int) ∨
        (2 ^ MAX_SECS_BITS : Int) ≤ (x.time.overflowing_add_signed d).2) ∧
      ValidDate (x.date + (x.time.overflowing_add_signed d).2 / 86400) ∧
      y = ⟨x.date + (x.time.overflowing_add_signed d).2 / 86400,
           (x.time.overflowing_add_signed d).1⟩ := by
  unfold NaiveDateTime.checked_add_signed date_checked_add_signed
  dsimp only
  split_ifs with h1 h2 <;> simp_all [eq_comm]

/-- Success characterization of checked_sub_signed. -/
theorem checked_sub_signed_some_iff (x : NaiveDateTime) (d : Int)
    (y : NaiveDateTime) :
    x.checked_sub_signed d = some y ↔
      ¬((x.time.overflowing_sub_signed d).2 ≤ -(2 ^ MAX_SECS_BITS : Int) ∨
        (2 ^ MAX_SECS_BITS : Int) ≤ (x.time.overflowing_sub_signed d).2) ∧
      ValidDate (x.date - (x.time.overflowing_sub_signed d).2 / 86400) ∧
      y = ⟨x.date - (x.time.overflowing_sub_signed d).2 / 86400,
           (x.time.overflowing_sub_signed d).1⟩ := by
  unfold NaiveDateTime.checked_sub_signed date_checked_sub_signed
  dsimp only
  split_ifs with h1 h2 <;> simp_all [eq_comm]

/-- C1 counterexample: adding 800 milliseconds to the leap-second value
1970-01-01T03:05:59.1300 leaves the leap second, and subtracting the same
duration afterwards lands on the plain value 03:05:59.300 instead of the
original leap second. -/
theorem C1_leap_roundtrip_counterexample :
    (⟨719163, ⟨11159, 1300000000⟩⟩ : NaiveDateTime).Valid ∧
    NaiveDateTime.checked_add_signed ⟨719163, ⟨11159, 1300000000⟩⟩ 800000000 =
      some ⟨719163, ⟨11160, 100000000⟩⟩ ∧
    NaiveDateTime.checked_sub_signed ⟨719163, ⟨11160, 100000000⟩⟩ 800000000 =
      some ⟨719163, ⟨11159, 300000000⟩⟩ ∧
    some (⟨719163, ⟨11159, 300000000⟩⟩ : NaiveDateTime) ≠
      some (⟨719163, ⟨11159, 1300000000⟩⟩ : NaiveDateTime) := by
  refine ⟨by decide, by decide, by decide, by decide⟩

/-- C1 (amended): for every valid x and duration below 2^44 seconds in
magnitude, a successful checked addition followed by the checked
subtraction of the same duration restores x, provided x is not a leap
second, or the addition stays inside the same leap second. -/
theorem C1_add_sub_roundtrip (x : NaiveDateTime) (d : Int) (y : NaiveDateTime)
    (hx : x.Valid)
    (hd : -((2 ^ MAX_SECS_BITS : Int) * 1000000000) < d ∧
          d < (2 ^ MAX_SECS_BITS : Int) * 1000000000)
    (hleap : x.time.frac < 1000000000 ∨
      (1000000000 - (x.time.frac : Int) ≤ d ∧
       d < 2000000000 - (x.time.frac : Int)))
    (hadd : x.checked_add_signed d = some y) :
    y.checked_sub_signed d = some x := by
  obtain ⟨⟨hd1, hd2⟩, hs, hf⟩ := hx
  rw [checked_add_signed_some_iff] at hadd
  obtain ⟨hg, hvd, rfl⟩ := hadd
  rw [checked_sub_signed_some_iff]
  by_cases hlp : x.time.frac < 1000000000
  · -- x is not a leap second
    have hAn := overflowing_add_nonleap x.time d hlp
    obtain ⟨hA1, hA2, hA3, hA4⟩ := addAligned_spec x.time.secs x.time.frac d
    rw [hAn] at hg hvd ⊢
    set A := NaiveTime.addAligned x.time.secs x.time.frac d with hA
    have hyt : (⟨x.date + A.2 / 86400, A.1⟩ : NaiveDateTime).time = A.1 := rfl
    have hsub : A.1.overflowing_sub_signed d =
        ((NaiveTime.addAligned A.1.secs A.1.frac (-d)).1,
         -(NaiveTime.addAligned A.1.secs A.1.frac (-d)).2) := by
      unfold NaiveTime.overflowing_sub_signed
      rw [overflowing_add_nonleap A.1 (-d) hA4]
    obtain ⟨hB1, hB2, hB3, hB4⟩ := addAligned_spec A.1.secs A.1.frac (-d)
    set B := NaiveTime.addAligned A.1.secs A.1.frac (-d) with hB
    have htv : (A.1.secs : Int) * 1000000000 + A.1.frac = A.1.tval := rfl
    rw [htv] at hB1 hB2
    have hSr : 0 ≤ (x.time.secs : Int) * 1000000000 + x.time.frac ∧
        (x.time.secs : Int) * 1000000000 + x.time.frac < 86400000000000 := by
      constructor <;> omega
    have hBA : B.2 = -A.2 := by rw [hB2, hA2]; unfold NaiveTime.tval at hB1 ⊢; omega
    have hBt : B.1.tval = (x.time.secs : Int) * 1000000000 + x.time.frac := by
      rw [hB1]; unfold NaiveTime.tval at hA1 ⊢; omega
    refine ⟨?_, ?_, ?_⟩
    · rw [hyt, hsub]
      dsimp only
      rw [hBA]
      omega
    · rw [hyt, hsub]
      dsimp only
      rw [hBA]
      have : x.date + A.2 / 86400 - - -A.2 / 86400 = x.date := by omega
      rw [this]
      exact ⟨hd1, hd2⟩
    · rw [hyt, hsub]
      dsimp only
      rw [hBA]
      have he : x.date + A.2 / 86400 - - -A.2 / 86400 = x.date := by omega
      rw [he]
      have hts : B.1 = x.time := by
        apply NaiveTime.eq_of_parts <;> unfold NaiveTime.tval at hBt <;> omega
      rw [hts]
  · -- x is a leap second and the addition stays inside it
    rcases hleap with h | ⟨hw1, hw2⟩
    · exact absurd h hlp
    have hovf : x.time.overflowing_add_signed d =
        (⟨x.time.secs, ((x.time.frac : Int) + d).toNat⟩, 0) :=
      overflowing_add_inwindow x.time d (by omega) (by omega) (by omega)
    rw [hovf] at hg hvd ⊢
    dsimp only at hvd ⊢
    have h0 : (0 : Int) / 86400 = 0 := by omega
    rw [h0] at hvd ⊢
    have hovf2 : (⟨x.time.secs, ((x.time.frac : Int) + d).toNat⟩ :
        NaiveTime).overflowing_sub_signed d =
        (x.time, 0) := by
      unfold NaiveTime.overflowing_sub_signed
      rw [overflowing_add_inwindow _ (-d) (by dsimp only; omega)
        (by dsimp only; omega) (by dsimp only; omega)]
      dsimp only
      refine Prod.ext ?_ (by norm_num)
      dsimp only
      refine NaiveTime.eq_of_parts rfl ?_
      dsimp only
      omega
    rw [hovf2]
    dsimp only
    rw [h0]
    refine ⟨by omega, by simpa using hvd, ?_⟩
    have : x.date + 0 - 0 = x.date := by omega
    rw [this]

/-- Witness for the amended C1: a plain value plus one day round-trips. -/
theorem C1_add_sub_roundtrip_witness :
    (⟨719163, ⟨11159, 300000000⟩⟩ : NaiveDateTime).Valid ∧
    NaiveDateTime.checked_add_signed ⟨719163, ⟨11159, 300000000⟩⟩ 86400000000000 =
      some ⟨719164, ⟨11159, 300000000⟩⟩ ∧
    NaiveDateTime.checked_sub_signed ⟨719164, ⟨11159, 300000000⟩⟩ 86400000000000 =
      some ⟨719163, ⟨11159, 300000000⟩⟩ :=
  ⟨by decide, by decide,
   C1_add_sub_roundtrip ⟨719163, ⟨11159, 300000000⟩⟩ 86400000000000
     ⟨719164, ⟨11159, 300000000⟩⟩ (by decide) (by decide)
     (Or.inl (by decide)) (by decide)⟩

/-! ## Field setters keep the other component -/

theorem map_time_keeps_date {o : Option NaiveTime} {x y : NaiveDateTime}
    (h : o.map (fun t => (⟨x.date, t⟩ : NaiveDateTime)) = some y) :
    y.date = x.date := by
  cases o with
  | none => simp at h
  | some t => simp at h; rw [← h]

theorem map_date_keeps_time {o : Option Int} {x y : NaiveDateTime}
    (h : o.map (fun d => (⟨d, x.time⟩ : NaiveDateTime)) = some y) :
    y.time = x.time := by
  cases o with
  | none => simp at h
  | some t => simp at h; rw [← h]

/-- C10: every time-field setter keeps the date component unchanged and
every date-field setter keeps the time component unchanged. -/
theorem C10_setters_frame :
    (∀ (x : NaiveDateTime) (v : Nat) (y : NaiveDateTime),
      x.with_hour v = some y → y.date = x.date) ∧
    (∀ (x : NaiveDateTime) (v : Nat) (y : NaiveDateTime),
      x.with_minute v = some y → y.date = x.date) ∧
    (∀ (x : NaiveDateTime) (v : Nat) (y : NaiveDateTime),
      x.with_second v = some y → y.date = x.date) ∧
    (∀ (x : NaiveDateTime) (v : Nat) (y : NaiveDateTime),
      x.with_nanosecond v = some y → y.date = x.date) ∧
    (∀ (x : NaiveDateTime) (v : Int) (y : NaiveDateTime),
      x.with_year v = some y → y.time = x.time) ∧
    (∀ (x : NaiveDateTime) (v : Int) (y : NaiveDateTime),
      x.with_month v = some y → y.time = x.time) ∧
    (∀ (x : NaiveDateTime) (v : Int) (y : NaiveDateTime),
      x.with_month0 v = some y → y.time = x.time) ∧
    (∀ (x : NaiveDateTime) (v : Int) (y : NaiveDateTime),
      x.with_day v = some y → y.time = x.time) ∧
    (∀ (x : NaiveDateTime) (v : Int) (y : NaiveDateTime),
      x.with_day0 v = some y → y.time = x.time) ∧
    (∀ (x : NaiveDateTime) (v : Int) (y : NaiveDateTime),
      x.with_ordinal v = some y → y.time = x.time) ∧
    (∀ (x : NaiveDateTime) (v : Int) (y : NaiveDateTime),
      x.with_ordinal0 v = some y → y.time = x.time) :=
  ⟨fun _ _ _ h => map_time_keeps_date h,
   fun _ _ _ h => map_time_keeps_date h,
   fun _ _ _ h => map_time_keeps_date h,
   fun _ _ _ h => map_time_keeps_date h,
   fun _ _ _ h => map_date_keeps_time h,
   fun _ _ _ h => map_date_keeps_time h,
   fun _ _ _ h => map_date_keeps_time h,
   fun _ _ _ h => map_date_keeps_time h,
   fun _ _ _ h => map_date_keeps_time h,
   fun _ _ _ h => map_date_keeps_time h,
   fun _ _ _ h => map_date_keeps_time h⟩

/-- Witness for C10 at concrete values: setting the hour keeps the date and
setting the year keeps the time. -/
theorem C10_setters_frame_witness :
    NaiveDateTime.with_hour ⟨719163, ⟨45296, 123⟩⟩ 7 =
      some ⟨719163, ⟨27296, 123⟩⟩ ∧
    (NaiveDateTime.date ⟨719163, ⟨27296, 123⟩⟩ : Int) =
      NaiveDateTime.date ⟨719163, ⟨45296, 123⟩⟩ ∧
    NaiveDateTime.with_year ⟨719163, ⟨45296, 123⟩⟩ 2016 =
      some ⟨735964, ⟨45296, 123⟩⟩ ∧
    NaiveDateTime.time ⟨735964, ⟨45296, 123⟩⟩ =
      NaiveDateTime.time ⟨719163, ⟨45296, 123⟩⟩ :=
  ⟨by decide,
   C10_setters_frame.1 ⟨719163, ⟨45296, 123⟩⟩ 7 ⟨719163, ⟨27296, 123⟩⟩
     (by decide),
   by decide,
   C10_setters_frame.2.2.2.2.1 ⟨719163, ⟨45296, 123⟩⟩ 2016 ⟨735964, ⟨45296, 123⟩⟩
     (by decide)⟩

/-! ## The textual round trip

The format and parse engine (format/mod.rs, format/parse.rs,
format/parsed.rs, not among the given sources) is modelled from the spec:
text is a list of characters, the canonical rendering writes zero-padded
decimal fields, and the canonical parse consumes the token sequence listed
in the FromStr implementation of the source (whitespace tolerance, sign
handling for the year, width-limited digit runs, an optional fractional
second, and resolution of the collected fields). -/

/-- Decimal digit characters. -/
def digitChar : Nat → Char
  | 0 => '0' | 1 => '1' | 2 => '2' | 3 => '3' | 4 => '4'
  | 5 => '5' | 6 => '6' | 7 => '7' | 8 => '8' | _ => '9'

def isDigitChar (c : Char) : Bool := 48 ≤ c.toNat && c.toNat ≤ 57

def digitVal (c : Char) : Nat := c.toNat - 48

/-- Decimal digits of a number, most significant first; the first argument
is recursion fuel. -/
def natDigitsAux : Nat → Nat → List Char
  | 0, _ => []
  | fuel + 1, n =>
    if n < 10 then [digitChar n]
    else natDigitsAux fuel (n / 10) ++ [digitChar (n % 10)]

def natDigits (n : Nat) : List Char := natDigitsAux (n + 1) n

/-- The numeric value of a digit run. -/
def digitsToNat (ds : List Char) : Nat :=
  ds.foldl (fun a c => 10 * a + digitVal c) 0

/-- Left-pad a digit run with zeros to the given width. -/
def padZeros (w : Nat) (ds : List Char) : List Char :=
  List.replicate (w - ds.length) '0' ++ ds

/-- Zero-padded decimal rendering. -/
def renderNat (w n : Nat) : List Char := padZeros w (natDigits n)

/-- Modelled from the spec: the year is written zero-padded to four digits,
with a minus sign for negative years and a plus sign beyond four digits. -/
def renderYear (y : Int) : List Char :=
  if y < 0 then '-' :: renderNat 4 (-y).toNat
  else if 10000 ≤ y then '+' :: renderNat 4 y.toNat
  else renderNat 4 y.toNat

/-- Modelled from the spec: the fractional seconds are omitted when zero and
otherwise written with three, six or nine digits. -/
def renderFrac (g : Nat) : List Char :=
  if g = 0 then []
  else if g % 1000000 = 0 then '.' :: renderNat 3 (g / 1000000)
  else if g % 1000 = 0 then '.' :: renderNat 6 (g / 1000)
  else '.' :: renderNat 9 g

/-- Modelled from the spec: the canonical rendering of the date component. -/
def renderDate (n : Int) : List Char :=
  renderYear (civilFromDays n).1 ++
    '-' :: renderNat 2 (civilFromDays n).2.1.toNat ++
    '-' :: renderNat 2 (civilFromDays n).2.2.toNat

/-- Modelled from the spec: the canonical rendering of the time-of-day
component; a leap second is shown as second sixty of the minute. -/
def renderTime (t : NaiveTime) : List Char :=
  renderNat 2 (t.secs / 3600) ++
    ':' :: renderNat 2 (t.secs / 60 % 60) ++
    ':' :: renderNat 2 (t.secs % 60 + (if 1000000000 ≤ t.frac then 1 else 0)) ++
    renderFrac (t.frac - (if 1000000000 ≤ t.frac then 1000000000 else 0))

/-- The Debug rendering of a NaiveDateTime: date, the literal T, time. -/
def debugRender (x : NaiveDateTime) : List Char :=
  renderDate x.date ++ 'T' :: renderTime x.time

/-- The Display rendering of a NaiveDateTime: date, a space, time. -/
def displayRender (x : NaiveDateTime) : List Char :=
  renderDate x.date ++ ' ' :: renderTime x.time

/-- C7 counterexample: the default textual conversion (Display) of the
concrete value 1970-01-01T12:34:56 is not the date rendering followed by
the literal T and the time rendering (it uses a space instead). -/
theorem C7_display_counterexample :
    displayRender ⟨719163, ⟨45296, 0⟩⟩ ≠
      renderDate 719163 ++ 'T' :: renderTime ⟨45296, 0⟩ := by decide

/-- C7 (amended): the debug output of every NaiveDateTime is exactly the
date rendering, the literal character T, then the time rendering; the
default textual conversion (Display) instead joins the same two renderings
with a space, and therefore always differs from the debug output. -/
theorem C7_canonical_serialization (x : NaiveDateTime) :
    debugRender x = renderDate x.date ++ 'T' :: renderTime x.time ∧
    displayRender x = renderDate x.date ++ ' ' :: renderTime x.time ∧
    displayRender x ≠ debugRender x := by
  refine ⟨rfl, rfl, ?_⟩
  intro h
  unfold displayRender debugRender at h
  have h2 := List.append_cancel_left h
  simp at h2

/-! ### The canonical parse, modelled from the spec -/

/-- Modelled from the spec: a whitespace token skips any leading
whitespace. -/
def skipSpace (s : List Char) : List Char :=
  s.dropWhile (fun c => c.isWhitespace)

/-- Take at most w leading digit characters. -/
def takeDigits : Nat → List Char → List Char × List Char
  | _, [] => ([], [])
  | 0, s => ([], s)
  | w + 1, c :: s =>
    if isDigitChar c then
      let p := takeDigits w s
      (c :: p.1, p.2)
    else ([], c :: s)

/-- Modelled from the spec: a numeric token consumes one to w digits. -/
def parseNum (w : Nat) (s : List Char) : Option (Nat × List Char) :=
  let p := takeDigits w s
  if p.1.isEmpty then none else some (digitsToNat p.1, p.2)

/-- Modelled from the spec: the year token accepts an optional sign; a sign
lifts the width limit of four digits. -/
def parseYearNum : List Char → Option (Int × List Char)
  | [] => none
  | c :: r =>
    if c = '-' then (parseNum r.length r).map fun p => (-(p.1 : Int), p.2)
    else if c = '+' then (parseNum r.length r).map fun p => ((p.1 : Int), p.2)
    else (parseNum 4 (c :: r)).map fun p => ((p.1 : Int), p.2)

/-- Modelled from the spec: a literal token consumes exactly its
character. -/
def parseLit (c : Char) : List Char → Option (List Char)
  | x :: r => if x = c then some r else none
  | [] => none

/-- The first nine parsed fraction digits, scaled to nanoseconds; excess
digits are ignored. -/
def scaleNanos (ds : List Char) : Nat :=
  digitsToNat (ds.take 9) * 10 ^ (9 - min 9 ds.length)

/-- Modelled from the spec: the fractional-second token consumes a dot and
a digit run when present and otherwise matches without input. -/
def parseNanos : List Char → Option (Nat × List Char)
  | [] => some (0, [])
  | c :: r =>
    if c = '.' then
      let p := takeDigits r.length r
      if p.1.isEmpty then none else some (scaleNanos p.1, p.2)
    else some (0, c :: r)

/-- Modelled from the spec: resolution of the parsed fields: the date is
built from the calendar triple with full validation, the time from the
clock fields where second sixty folds into a leap second. -/
def resolveYmdHms (y : Int) (mo d h mi s nano : Nat) :
    Option NaiveDateTime :=
  match fromYmdOpt y (mo : Int) (d : Int) with
  | none => none
  | some dd =>
    if h ≤ 23 ∧ mi ≤ 59 ∧ s ≤ 60 then
      match NaiveTime.from_num_seconds_from_midnight_opt
          (h * 3600 + mi * 60 + (if s = 60 then 59 else s))
          (if s = 60 then nano + 1000000000 else nano) with
      | some t => some ⟨dd, t⟩
      | none => none
    else none

/-- The canonical parser of the FromStr implementation: the token sequence
of the source (whitespace, year, -, month, -, day, T, hour, :, minute, :,
second, fraction, whitespace), then resolution, requiring the whole input
to be consumed. -/
def fromStrModel (s : List Char) : Option NaiveDateTime := do
  let (y, s1) ← parseYearNum (skipSpace s)
  let s2 ← parseLit '-' (skipSpace s1)
  let (mo, s3) ← parseNum 2 (skipSpace s2)
  let s4 ← parseLit '-' (skipSpace s3)
  let (dy, s5) ← parseNum 2 (skipSpace s4)
  let s6 ← parseLit 'T' (skipSpace s5)
  let (h, s7) ← parseNum 2 (skipSpace s6)
  let s8 ← parseLit ':' (skipSpace s7)
  let (mi, s9) ← parseNum 2 (skipSpace s8)
  let s10 ← parseLit ':' (skipSpace s9)
  let (se, s11) ← parseNum 2 (skipSpace s10)
  let (na, s12) ← parseNanos s11
  if (skipSpace s12).isEmpty then resolveYmdHms y mo dy h mi se na else none

/-- C4 counterexample: the leap-second value 1970-01-01T00:00:00 with
nanosecond field 1,500,000,000 (a leap second away from the minute
boundary) renders as 00:00:01.500, which re-parses as the plain value
1970-01-01T00:00:01.500, different from the original. -/
theorem C4_leap_roundtrip_counterexample :
    (⟨719163, ⟨0, 1500000000⟩⟩ : NaiveDateTime).Valid ∧
    fromStrModel (debugRender ⟨719163, ⟨0, 1500000000⟩⟩) =
      some ⟨719163, ⟨1, 500000000⟩⟩ ∧
    some (⟨719163, ⟨1, 500000000⟩⟩ : NaiveDateTime) ≠
      some (⟨719163, ⟨0, 1500000000⟩⟩ : NaiveDateTime) := by
  refine ⟨by decide, by decide, by decide⟩

/-! ### Parsing inverts the canonical rendering -/

theorem digitVal_digitChar (k : Nat) (h : k < 10) :
    digitVal (digitChar k) = k := by
  interval_cases k <;> decide

theorem isDigitChar_digitChar (k : Nat) : isDigitChar (digitChar k) = true := by
  unfold digitChar
  split <;> decide

theorem isDigitChar_not_ws {c : Char} (h : isDigitChar c = true) :
    c.isWhitespace = false := by
  by_cases h1 : c = ' '
  · subst h1; exact absurd h (by decide)
  by_cases h2 : c = '\t'
  · subst h2; exact absurd h (by decide)
  by_cases h3 : c = '\r'
  · subst h3; exact absurd h (by decide)
  by_cases h4 : c = '\n'
  · subst h4; exact absurd h (by decide)
  unfold Char.isWhitespace
  simp [h1, h2, h3, h4]

theorem natDigitsAux_irrel (fuel : Nat) :
    ∀ (fuel' n : Nat), n < fuel → n < fuel' →
      natDigitsAux fuel n = natDigitsAux fuel' n := by
  induction fuel with
  | zero => omega
  | succ f ih =>
    intro fuel' n h h'
    cases fuel' with
    | zero => omega
    | succ f' =>
      unfold natDigitsAux
      by_cases h10 : n < 10
      · rw [if_pos h10, if_pos h10]
      · rw [if_neg h10, if_neg h10, ih f' (n / 10) (by omega) (by omega)]

theorem digitsToNat_append_single (l : List Char) (c : Char) :
    digitsToNat (l ++ [c]) = 10 * digitsToNat l + digitVal c := by
  unfold digitsToNat
  rw [List.foldl_append]
  rfl

theorem natDigits_spec (n : Nat) :
    digitsToNat (natDigits n) = n ∧
      (∀ c ∈ natDigits n, isDigitChar c = true) ∧
      natDigits n ≠ [] ∧
      (∀ w, n < 10 ^ w → 1 ≤ w → (natDigits n).length ≤ w) := by
  induction n using Nat.strong_induction_on with
  | _ n ih =>
    by_cases h10 : n < 10
    · have hd : natDigits n = [digitChar n] := by
        unfold natDigits natDigitsAux
        rw [if_pos h10]
      rw [hd]
      refine ⟨?_, ?_, by simp, ?_⟩
      · show 10 * 0 + digitVal (digitChar n) = n
        rw [digitVal_digitChar n h10]
        omega
      · intro c hc
        rw [List.mem_singleton] at hc
        subst hc
        exact isDigitChar_digitChar n
      · intro w _ h1
        simpa using h1
    · have hd : natDigits n = natDigits (n / 10) ++ [digitChar (n % 10)] := by
        unfold natDigits
        conv_lhs => unfold natDigitsAux
        rw [if_neg h10, natDigitsAux_irrel n (n / 10 + 1) (n / 10)
          (by omega) (by omega)]
      obtain ⟨ihv, ihd, ihne, ihl⟩ := ih (n / 10) (by omega)
      rw [hd]
      refine ⟨?_, ?_, by simp, ?_⟩
      · rw [digitsToNat_append_single, ihv, digitVal_digitChar (n % 10) (by omega)]
        omega
      · intro c hc
        rcases List.mem_append.mp hc with h | h
        · exact ihd c h
        · rw [List.mem_singleton] at h
          subst h
          exact isDigitChar_digitChar (n % 10)
      · intro w hw h1
        cases w with
        | zero => omega
        | succ w' =>
          have hp : (10 : Nat) ^ (w' + 1) = 10 * 10 ^ w' := by ring
          cases Nat.eq_zero_or_pos w' with
          | inl h0 =>
            subst h0
            simp at hp
            omega
          | inr hpos =>
            have : n / 10 < 10 ^ w' := by omega
            have := ihl w' this hpos
            simp only [List.length_append, List.length_singleton]
            omega

theorem digitsToNat_replicate_zero (k : Nat) (ds : List Char) :
    digitsToNat (List.replicate k '0' ++ ds) = digitsToNat ds := by
  induction k with
  | zero => rfl
  | succ k ihk =>
    rw [List.replicate_succ, List.cons_append]
    show List.foldl _ (10 * 0 + digitVal '0') _ = _
    have : 10 * 0 + digitVal '0' = 0 := by decide
    rw [this]
    exact ihk

theorem renderNat_spec (w n : Nat) :
    digitsToNat (renderNat w n) = n ∧
      (∀ c ∈ renderNat w n, isDigitChar c = true) ∧
      renderNat w n ≠ [] ∧
      (n < 10 ^ w → 1 ≤ w → (renderNat w n).length = w) := by
  obtain ⟨hv, hdig, hne, hlen⟩ := natDigits_spec n
  unfold renderNat padZeros
  refine ⟨?_, ?_, ?_, ?_⟩
  · rw [digitsToNat_replicate_zero, hv]
  · intro c hc
    rcases List.mem_append.mp hc with h | h
    · rw [List.eq_of_mem_replicate h]
      decide
    · exact hdig c h
  · simp [hne]
  · intro hw h1
    have := hlen w hw h1
    simp only [List.length_append, List.length_replicate]
    omega

/-- The rest of the input does not begin with a digit. -/
def notDigitStart : List Char → Prop
  | [] => True
  | c :: _ => isDigitChar c = false

theorem takeDigits_exact (ds : List Char) :
    ∀ (w : Nat) (rest : List Char),
      (∀ c ∈ ds, isDigitChar c = true) → ds.length ≤ w → notDigitStart rest →
      takeDigits w (ds ++ rest) = (ds, rest) := by
  induction ds with
  | nil =>
    intro w rest _ _ hr
    rw [List.nil_append]
    cases rest with
    | nil => cases w <;> rfl
    | cons c r =>
      cases w with
      | zero => rfl
      | succ w =>
        unfold takeDigits
        simp only [notDigitStart] at hr
        simp [hr]
  | cons c ds ihds =>
    intro w rest hd hw hr
    cases w with
    | zero => simp at hw
    | succ w =>
      rw [List.cons_append]
      unfold takeDigits
      rw [if_pos (hd c (List.mem_cons_self c ds))]
      dsimp only
      rw [ihds w rest (fun x hx => hd x (List.mem_cons_of_mem c hx))
        (by simpa using hw) hr]

theorem notDigitStart_cons {c : Char} {l : List Char}
    (h : isDigitChar c = false) : notDigitStart (c :: l) := h

theorem parseNum_render (w w' n : Nat) (rest : List Char)
    (hlen : (renderNat w n).length ≤ w') (hrest : notDigitStart rest) :
    parseNum w' (renderNat w n ++ rest) = some (n, rest) := by
  obtain ⟨hv, hdig, hne, _⟩ := renderNat_spec w n
  unfold parseNum
  rw [takeDigits_exact (renderNat w n) w' rest hdig hlen hrest]
  dsimp only
  rw [if_neg (by simp [List.isEmpty_iff, hne]), hv]

theorem skipSpace_cons (c : Char) (s : List Char) (h : c.isWhitespace = false) :
    skipSpace (c :: s) = c :: s := by
  simp [skipSpace, List.dropWhile_cons, h]

theorem skipSpace_digits (ds rest : List Char)
    (hd : ∀ c ∈ ds, isDigitChar c = true) (hne : ds ≠ []) :
    skipSpace (ds ++ rest) = ds ++ rest := by
  cases ds with
  | nil => exact absurd rfl hne
  | cons c t =>
    rw [List.cons_append]
    exact skipSpace_cons c (t ++ rest)
      (isDigitChar_not_ws (hd c (List.mem_cons_self c t)))

theorem parseLit_self (c : Char) (r : List Char) : parseLit c (c :: r) = some r := by
  unfold parseLit
  simp

theorem skipSpace_renderYear (y : Int) (rest : List Char) :
    skipSpace (renderYear y ++ rest) = renderYear y ++ rest := by
  unfold renderYear
  split_ifs
  · rw [List.cons_append]
    exact skipSpace_cons _ _ (by decide)
  · rw [List.cons_append]
    exact skipSpace_cons _ _ (by decide)
  · exact skipSpace_digits _ rest (renderNat_spec 4 y.toNat).2.1
      (renderNat_spec 4 y.toNat).2.2.1

theorem parseYearNum_digits (c : Char) (t : List Char)
    (hc : isDigitChar c = true) :
    parseYearNum (c :: t) =
      (parseNum 4 (c :: t)).map fun p => ((p.1 : Int), p.2) := by
  have hc1 : ¬(c = '-') := fun h => by subst h; exact absurd hc (by decide)
  have hc2 : ¬(c = '+') := fun h => by subst h; exact absurd hc (by decide)
  unfold parseYearNum
  dsimp only
  rw [if_neg hc1, if_neg hc2]

theorem parseYearNum_render (y : Int) (rest : List Char)
    (h1 : -262144 ≤ y) (h2 : y ≤ 262143) (hrest : notDigitStart rest) :
    parseYearNum (renderYear y ++ rest) = some (y, rest) := by
  unfold renderYear
  split_ifs with hneg hbig
  · rw [List.cons_append]
    unfold parseYearNum
    dsimp only
    rw [if_pos rfl,
      parseNum_render 4 (renderNat 4 (-y).toNat ++ rest).length (-y).toNat rest
        (by simp only [List.length_append]; omega) hrest]
    have hy : ((-y).toNat : Int) = -y := Int.toNat_of_nonneg (by omega)
    simp [hy]
  · rw [List.cons_append]
    unfold parseYearNum
    dsimp only
    rw [if_neg (show ¬(('+' : Char) = '-') by decide), if_pos rfl,
      parseNum_render 4 (renderNat 4 y.toNat ++ rest).length y.toNat rest
        (by simp only [List.length_append]; omega) hrest]
    have hy : (y.toNat : Int) = y := Int.toNat_of_nonneg (by omega)
    simp [hy]
  · obtain ⟨hv, hdig, hne, hlen⟩ := renderNat_spec 4 y.toNat
    have hlen4 : (renderNat 4 y.toNat).length = 4 := by
      refine hlen ?_ (by omega)
      have : y.toNat ≤ 9999 := by omega
      omega
    rcases hcons : renderNat 4 y.toNat with _ | ⟨c, t⟩
    · exact absurd hcons hne
    · rw [List.cons_append,
        parseYearNum_digits c (t ++ rest)
          (hdig c (by rw [hcons]; exact List.mem_cons_self c t)),
        ← List.cons_append, ← hcons,
        parseNum_render 4 4 y.toNat rest (by rw [hlen4]) hrest]
      have hy : (y.toNat : Int) = y := Int.toNat_of_nonneg (by omega)
      simp [hy]

theorem notDigitStart_renderFrac (g : Nat) : notDigitStart (renderFrac g) := by
  unfold renderFrac
  split_ifs
  · trivial
  · exact notDigitStart_cons (by decide)
  · exact notDigitStart_cons (by decide)
  · exact notDigitStart_cons (by decide)

theorem parseNanos_renderNat (w g q : Nat) (hq : q < 10 ^ w) (h1 : 1 ≤ w)
    (hw9 : w ≤ 9) (hg : g = q * 10 ^ (9 - w)) :
    parseNanos ('.' :: renderNat w q) = some (g, []) := by
  obtain ⟨hv, hdig, hne, hlen⟩ := renderNat_spec w q
  have hlw : (renderNat w q).length = w := hlen hq h1
  unfold parseNanos
  dsimp only
  rw [if_pos rfl]
  have htd : takeDigits (renderNat w q).length (renderNat w q) =
      (renderNat w q, []) := by
    have := takeDigits_exact (renderNat w q) (renderNat w q).length []
      hdig (le_refl _) trivial
    simpa using this
  rw [htd]
  dsimp only
  rw [if_neg (by simp [List.isEmpty_iff, hne])]
  have hs : scaleNanos (renderNat w q) = g := by
    unfold scaleNanos
    rw [hlw, List.take_of_length_le (by omega), hv]
    have hmin : min 9 w = w := by omega
    rw [hmin, hg]
  rw [hs]

theorem parseNanos_render (g : Nat) (hg : g < 1000000000) :
    parseNanos (renderFrac g) = some (g, []) := by
  unfold renderFrac
  split_ifs with h0 h6 h3
  · subst h0; rfl
  · exact parseNanos_renderNat 3 g (g / 1000000) (by omega) (by omega)
      (by omega) (by omega)
  · exact parseNanos_renderNat 6 g (g / 1000) (by omega) (by omega)
      (by omega) (by omega)
  · exact parseNanos_renderNat 9 g g (by omega) (by omega) (by omega)
      (by omega)

/-- The canonical parse consumes the canonical rendering of the fields and
hands them to the resolution step. -/
theorem fromStrModel_render (y : Int) (mo dd h mi se na : Nat)
    (hy1 : -262144 ≤ y) (hy2 : y ≤ 262143)
    (hmo : mo < 100) (hdd : dd < 100) (hh : h < 100) (hmi : mi < 100)
    (hse : se < 100) (hna : na < 1000000000) :
    fromStrModel (renderYear y ++ '-' :: (renderNat 2 mo ++ '-' ::
      (renderNat 2 dd ++ 'T' :: (renderNat 2 h ++ ':' :: (renderNat 2 mi ++
      ':' :: (renderNat 2 se ++ renderFrac na)))))) =
      resolveYmdHms y mo dd h mi se na := by
  have l2 : ∀ n : Nat, n < 100 → (renderNat 2 n).length ≤ 2 := fun n hn =>
    le_of_eq ((renderNat_spec 2 n).2.2.2 (by omega) (by omega))
  unfold fromStrModel
  rw [skipSpace_renderYear,
    parseYearNum_render y _ hy1 hy2 (notDigitStart_cons (by decide))]
  dsimp only [Option.bind_eq_bind, Option.some_bind]
  rw [skipSpace_cons '-' _ (by decide), parseLit_self '-' _]
  dsimp only [Option.bind_eq_bind, Option.some_bind]
  rw [skipSpace_digits _ _ (renderNat_spec 2 mo).2.1 (renderNat_spec 2 mo).2.2.1,
    parseNum_render 2 2 mo _ (l2 mo hmo) (notDigitStart_cons (by decide))]
  dsimp only [Option.bind_eq_bind, Option.some_bind]
  rw [skipSpace_cons '-' _ (by decide), parseLit_self '-' _]
  dsimp only [Option.bind_eq_bind, Option.some_bind]
  rw [skipSpace_digits _ _ (renderNat_spec 2 dd).2.1 (renderNat_spec 2 dd).2.2.1,
    parseNum_render 2 2 dd _ (l2 dd hdd) (notDigitStart_cons (by decide))]
  dsimp only [Option.bind_eq_bind, Option.some_bind]
  rw [skipSpace_cons 'T' _ (by decide), parseLit_self 'T' _]
  dsimp only [Option.bind_eq_bind, Option.some_bind]
  rw [skipSpace_digits _ _ (renderNat_spec 2 h).2.1 (renderNat_spec 2 h).2.2.1,
    parseNum_render 2 2 h _ (l2 h hh) (notDigitStart_cons (by decide))]
  dsimp only [Option.bind_eq_bind, Option.some_bind]
  rw [skipSpace_cons ':' _ (by decide), parseLit_self ':' _]
  dsimp only [Option.bind_eq_bind, Option.some_bind]
  rw [skipSpace_digits _ _ (renderNat_spec 2 mi).2.1 (renderNat_spec 2 mi).2.2.1,
    parseNum_render 2 2 mi _ (l2 mi hmi) (notDigitStart_cons (by decide))]
  dsimp only [Option.bind_eq_bind, Option.some_bind]
  rw [skipSpace_cons ':' _ (by decide), parseLit_self ':' _]
  dsimp only [Option.bind_eq_bind, Option.some_bind]
  rw [skipSpace_digits _ _ (renderNat_spec 2 se).2.1 (renderNat_spec 2 se).2.2.1,
    parseNum_render 2 2 se _ (l2 se hse) (notDigitStart_renderFrac na)]
  dsimp only [Option.bind_eq_bind, Option.some_bind]
  rw [parseNanos_render na hna]
  dsimp only [Option.bind_eq_bind, Option.some_bind]
  rfl

/-- C4 (amended): for every valid NaiveDateTime x that is not a leap second
away from the minute boundary (that is, whose nanosecond field is below
1,000,000,000, or whose second of the minute is 59), parsing the canonical
rendering of x through the canonical parser yields exactly x. -/
theorem C4_parse_format_roundtrip (x : NaiveDateTime) (hx : x.Valid)
    (hcond : x.time.frac < 1000000000 ∨ x.time.secs % 60 = 59) :
    fromStrModel (debugRender x) = some x := by
  obtain ⟨⟨hd1, hd2⟩, hs, hf⟩ := hx
  obtain ⟨hvymd, hback⟩ := civilFromDays_correct x.date hd1 hd2
  obtain ⟨hy1, hy2, hm1, hm2, hdy1, hdy2⟩ := id hvymd
  have hdim : daysInMonth (civilFromDays x.date).1 (civilFromDays x.date).2.1 ≤
      31 := by
    unfold daysInMonth
    split_ifs <;> omega
  have hmoc : (((civilFromDays x.date).2.1.toNat : Int)) =
      (civilFromDays x.date).2.1 := Int.toNat_of_nonneg (by omega)
  have hddc : (((civilFromDays x.date).2.2.toNat : Int)) =
      (civilFromDays x.date).2.2 := Int.toNat_of_nonneg (by omega)
  have hshape : debugRender x =
      renderYear (civilFromDays x.date).1 ++ '-' ::
        (renderNat 2 (civilFromDays x.date).2.1.toNat ++ '-' ::
        (renderNat 2 (civilFromDays x.date).2.2.toNat ++ 'T' ::
        (renderNat 2 (x.time.secs / 3600) ++ ':' ::
        (renderNat 2 (x.time.secs / 60 % 60) ++ ':' ::
        (renderNat 2 (x.time.secs % 60 +
            (if 1000000000 ≤ x.time.frac then 1 else 0)) ++
          renderFrac (x.time.frac -
            (if 1000000000 ≤ x.time.frac then 1000000000 else 0))))))) := by
    simp [debugRender, renderDate, renderTime, List.append_assoc,
      List.cons_append]
  rw [hshape, fromStrModel_render _ _ _ _ _ _ _ hy1 hy2 (by omega) (by omega)
    (by omega) (by omega) (by split_ifs <;> omega) (by split_ifs <;> omega)]
  unfold resolveYmdHms
  rw [hmoc, hddc]
  unfold fromYmdOpt
  rw [if_pos hvymd, hback]
  dsimp only
  rw [if_pos (by refine ⟨by omega, by omega, ?_⟩; split_ifs <;> omega)]
  by_cases hlp : x.time.frac < 1000000000
  · have hc1 : ¬(1000000000 ≤ x.time.frac) := by omega
    simp only [if_neg hc1, Nat.add_zero, Nat.sub_zero]
    rw [if_neg (by omega), if_neg (by omega)]
    have e1 : x.time.secs / 3600 * 3600 + x.time.secs / 60 % 60 * 60 +
        x.time.secs % 60 = x.time.secs := by omega
    rw [e1]
    unfold NaiveTime.from_num_seconds_from_midnight_opt
    rw [if_pos ⟨hs, hf⟩]
  · have hc1 : 1000000000 ≤ x.time.frac := by omega
    have h59 : x.time.secs % 60 = 59 := by
      rcases hcond with h | h
      · omega
      · exact h
    simp only [if_pos hc1]
    rw [if_pos (by omega), if_pos (by omega)]
    have e1 : x.time.secs / 3600 * 3600 + x.time.secs / 60 % 60 * 60 + 59 =
        x.time.secs := by omega
    rw [e1]
    have e2 : x.time.frac - 1000000000 + 1000000000 = x.time.frac := by omega
    rw [e2]
    unfold NaiveTime.from_num_seconds_from_midnight_opt
    rw [if_pos ⟨hs, hf⟩]

/-- Witness for the amended C4 at two concrete values: a plain value with a
fraction and a leap second at the minute boundary. -/
theorem C4_parse_format_roundtrip_witness :
    (⟨719163, ⟨45296, 42000000⟩⟩ : NaiveDateTime).Valid ∧
    fromStrModel (debugRender ⟨719163, ⟨45296, 42000000⟩⟩) =
      some ⟨719163, ⟨45296, 42000000⟩⟩ ∧
    (⟨719163, ⟨86399, 1500000000⟩⟩ : NaiveDateTime).Valid ∧
    fromStrModel (debugRender ⟨719163, ⟨86399, 1500000000⟩⟩) =
      some ⟨719163, ⟨86399, 1500000000⟩⟩ :=
  ⟨by decide,
   C4_parse_format_roundtrip ⟨719163, ⟨45296, 42000000⟩⟩ (by decide)
     (Or.inl (by decide)),
   by decide,
   C4_parse_format_roundtrip ⟨719163, ⟨86399, 1500000000⟩⟩ (by decide)
     (Or.inr (by decide))⟩

end Chrono
